import Mathlib

/-!
# Verification of the free-bird-server room broker

A shallow embedding of `src/signaling-server.js`: a WebSocket signaling
server that maintains a registry of rooms (a JS `Map` from room key to a
JS `Set` of client sockets), lets clients `join` a room, forwards
`offer`/`answer`/`candidate` messages to the other members of a room
(excluding the sender and non-open sockets), and broadcasts `leave` when
a client disconnects.

Modelling decisions, all taken from the source:
* A client socket is identified by reference identity; we model it as a
  `Nat` id (`ConnId`).
* A JS `Set` of sockets is a duplicate-free `List ConnId` in insertion
  order (`Set.prototype.add` appends when absent; `forEach` iterates in
  insertion order).
* The `rooms` `Map` is an association list `List (RoomKey × List ConnId)`
  in key-insertion order.  A room key is the value of the `room` field of
  the parsed JSON message; since `data.room` may be `undefined` (the field
  absent) and a JS `Map` accepts `undefined` as a key, a key is
  `Option String` with `none` standing for `undefined`.
* `ws.roomId = room` is an association list `List (ConnId × RoomKey)`.
* `ws.readyState === WebSocket.OPEN` is membership in an `openConns` list;
  a connection is open from its `connection` event to its `close` event.
* `JSON.parse` failure is the `none` case of an `Option JsonMsg` payload;
  a successfully parsed object has optional `type` and `room` string
  fields plus opaque further fields (`extra`), forwarded verbatim.
* The `close` handler's guard `if (roomId && rooms.has(roomId))` uses JS
  truthiness: the strings `undefined` and `""` are falsy, so `keyTruthy`
  below is `false` exactly there.
-/

/-- A connected client socket, identified by reference identity. -/
abbrev ConnId := Nat

/-- A key of the `rooms` map: the `room` field of a parsed message.
`none` models the JS value `undefined` (field absent). -/
abbrev RoomKey := Option String

/-- A successfully parsed JSON message: the `type` and `room` fields the
broker destructures (each possibly absent), plus the remaining fields,
which the broker treats as opaque and forwards verbatim. -/
structure JsonMsg where
  type : Option String
  room : RoomKey
  extra : List (String × String)
deriving DecidableEq

/-- `JSON.stringify({ type: 'joined' })` sent to the first member. -/
def joinedMsg : JsonMsg := ⟨some "joined", none, []⟩

/-- `JSON.stringify({ type: 'ready' })` broadcast when a room reaches two members. -/
def readyMsg : JsonMsg := ⟨some "ready", none, []⟩

/-- `JSON.stringify({ type: 'leave' })` broadcast when a member disconnects. -/
def leaveMsg : JsonMsg := ⟨some "leave", none, []⟩

/-- The broker's whole mutable state: the `rooms` map, every socket's
`roomId` property, and which sockets are currently open. -/
structure ServerState where
  rooms : List (RoomKey × List ConnId)
  roomId : List (ConnId × RoomKey)
  openConns : List ConnId
deriving DecidableEq

/-- The state at process start: no rooms, no sockets. -/
def initState : ServerState := ⟨[], [], []⟩

/-- `Map.prototype.get` / `Map.prototype.has` on an association list:
the value at the first matching key. -/
def mapGet (r : RoomKey) : List (RoomKey × List ConnId) → Option (List ConnId)
  | [] => none
  | (k, v) :: rest => if k = r then some v else mapGet r rest

/-- Mutate the set object stored at key `r` (the JS `Set` is held by
reference, so `rooms.get(room).add(ws)` updates it in place). -/
def mapUpdate (r : RoomKey) (f : List ConnId → List ConnId) :
    List (RoomKey × List ConnId) → List (RoomKey × List ConnId)
  | [] => []
  | (k, v) :: rest =>
      if k = r then (k, f v) :: rest else (k, v) :: mapUpdate r f rest

/-- `Set.prototype.add`: append when absent, no-op when present. -/
def setAdd (c : ConnId) (l : List ConnId) : List ConnId :=
  if c ∈ l then l else l ++ [c]

/-- `Set.prototype.delete`: remove the element. -/
def setDelete (c : ConnId) (l : List ConnId) : List ConnId :=
  l.filter (fun x => x ≠ c)

/-- Property assignment `ws.roomId = room` on the association list. -/
def assocSet (c : ConnId) (r : RoomKey) : List (ConnId × RoomKey) → List (ConnId × RoomKey)
  | [] => [(c, r)]
  | (c', r') :: rest =>
      if c' = c then (c', r) :: rest else (c', r') :: assocSet c r rest

/-- Reading `ws.roomId`: `none` when the property was never assigned
(the JS value `undefined`). -/
def assocGet (c : ConnId) : List (ConnId × RoomKey) → Option RoomKey
  | [] => none
  | (c', r') :: rest => if c' = c then some r' else assocGet c rest

/-- JS truthiness of the `roomId` value in `if (roomId && ...)`:
`undefined` and the empty string are falsy. -/
def keyTruthy : RoomKey → Bool
  | none => false
  | some r => r ≠ ""

/-- The member set of room `r`, the empty set when the room is absent. -/
def ServerState.members (s : ServerState) (r : RoomKey) : List ConnId :=
  (mapGet r s.rooms).getD []

/-- The `broadcast(room, message, sender)` helper: for every member of
`room` other than `sender` whose socket is open, send `message`.  Returns
the list of (recipient, message) sends, in iteration order; does not
touch any state. -/
def broadcastSends (s : ServerState) (room : RoomKey) (msg : JsonMsg)
    (sender : ConnId) : List (ConnId × JsonMsg) :=
  match mapGet room s.rooms with
  | none => []
  | some clients =>
      (clients.filter (fun c => c ≠ sender ∧ c ∈ s.openConns)).map
        (fun c => (c, msg))

/-- The registry after the `join` case's first two steps: create the room
if absent (`rooms.set(room, new Set())`), then add the sender to its set
(`rooms.get(room).add(ws)`). -/
def joinRooms (s : ServerState) (c : ConnId) (room : RoomKey) :
    List (RoomKey × List ConnId) :=
  let rooms1 := if (mapGet room s.rooms).isSome then s.rooms
                else s.rooms ++ [(room, [])]
  mapUpdate room (setAdd c) rooms1

/-- The `case 'join'` branch of the message handler: create the room if
absent, add the sender to its set, record `ws.roomId`, then reply
`joined` to a sole member or broadcast `ready` at two members. -/
def handleJoin (s : ServerState) (c : ConnId) (room : RoomKey) :
    ServerState × List (ConnId × JsonMsg) :=
  let rooms2 := joinRooms s c room
  let s1 : ServerState :=
    { s with rooms := rooms2, roomId := assocSet c room s.roomId }
  let clients := (mapGet room rooms2).getD []
  if clients.length = 1 then (s1, [(c, joinedMsg)])
  else if clients.length = 2 then (s1, broadcastSends s1 room readyMsg c)
  else (s1, [])

/-- The `'offer' | 'answer' | 'candidate'` branches: broadcast the full
parsed message to the room named by its `room` field, excluding the
sender; no state change. -/
def handleForward (s : ServerState) (c : ConnId) (msg : JsonMsg) :
    ServerState × List (ConnId × JsonMsg) :=
  (s, broadcastSends s msg.room msg c)

/-- The three `switch` cases that share the forwarding branch. -/
def forwardType (t : Option String) : Prop :=
  t = some "offer" ∨ t = some "answer" ∨ t = some "candidate"

instance (t : Option String) : Decidable (forwardType t) := by
  unfold forwardType
  infer_instance

/-- The `ws.on('message')` handler: parse (silently dropping failures),
then dispatch on the `type` field (the `switch` statement, with
`offer`/`answer`/`candidate` falling through to one branch); unknown
types are ignored. -/
def onMessage (s : ServerState) (c : ConnId) (raw : Option JsonMsg) :
    ServerState × List (ConnId × JsonMsg) :=
  match raw with
  | none => (s, [])
  | some data =>
      if data.type = some "join" then handleJoin s c data.room
      else if forwardType data.type then handleForward s c data
      else (s, [])

/-- The `ws.on('close')` handler: the socket is no longer open; if its
`roomId` is truthy and names an existing room, delete it from that
room's set and broadcast `leave` to the remaining members. -/
def handleClose (s : ServerState) (c : ConnId) :
    ServerState × List (ConnId × JsonMsg) :=
  let s0 : ServerState :=
    { s with openConns := s.openConns.filter (fun x => x ≠ c) }
  match assocGet c s0.roomId with
  | none => (s0, [])
  | some rk =>
      if keyTruthy rk ∧ (mapGet rk s0.rooms).isSome then
        let s1 : ServerState :=
          { s0 with rooms := mapUpdate rk (setDelete c) s0.rooms }
        (s1, broadcastSends s1 rk leaveMsg c)
      else (s0, [])

/-- A transport-layer event driving the broker. -/
inductive Event where
  | connect (c : ConnId)
  | message (c : ConnId) (raw : Option JsonMsg)
  | disconnect (c : ConnId)
deriving DecidableEq

/-- One transition of the broker: the new state and the sends it emitted. -/
def step (s : ServerState) : Event → ServerState × List (ConnId × JsonMsg)
  | .connect c => ({ s with openConns := setAdd c s.openConns }, [])
  | .message c raw => onMessage s c raw
  | .disconnect c => handleClose s c

/-- Run a list of events, accumulating all sends in order. -/
def steps (s : ServerState) : List Event → ServerState × List (ConnId × JsonMsg)
  | [] => (s, [])
  | e :: es =>
      let r1 := step s e
      let r2 := steps r1.1 es
      (r2.1, r1.2 ++ r2.2)

/-! ## Basic lemmas about the map and association-list operations -/

theorem mapGet_append_none {m m2 : List (RoomKey × List ConnId)} {r : RoomKey}
    (h : mapGet r m = none) : mapGet r (m ++ m2) = mapGet r m2 := by
  induction m with
  | nil => rfl
  | cons p rest ih =>
      obtain ⟨k, v⟩ := p
      by_cases hk : k = r
      · simp [mapGet, hk] at h
      · simp [mapGet, hk] at h ⊢
        exact ih h

theorem mapGet_append_some {m m2 : List (RoomKey × List ConnId)} {r : RoomKey}
    {v : List ConnId} (h : mapGet r m = some v) : mapGet r (m ++ m2) = some v := by
  induction m with
  | nil => simp [mapGet] at h
  | cons p rest ih =>
      obtain ⟨k, w⟩ := p
      by_cases hk : k = r
      · simp [mapGet, hk] at h ⊢
        exact h
      · simp [mapGet, hk] at h ⊢
        exact ih h

theorem mapGet_mapUpdate_self (r : RoomKey) (f : List ConnId → List ConnId)
    (m : List (RoomKey × List ConnId)) :
    mapGet r (mapUpdate r f m) = (mapGet r m).map f := by
  induction m with
  | nil => rfl
  | cons p rest ih =>
      obtain ⟨k, v⟩ := p
      by_cases hk : k = r
      · simp [mapGet, mapUpdate, hk]
      · simp [mapGet, mapUpdate, hk, ih]

theorem mapGet_mapUpdate_ne {r r' : RoomKey} (hne : r' ≠ r)
    (f : List ConnId → List ConnId) (m : List (RoomKey × List ConnId)) :
    mapGet r' (mapUpdate r f m) = mapGet r' m := by
  induction m with
  | nil => rfl
  | cons p rest ih =>
      obtain ⟨k, v⟩ := p
      by_cases hk : k = r
      · subst hk
        simp [mapGet, mapUpdate, Ne.symm hne]
      · simp only [mapUpdate, if_neg hk, mapGet]
        by_cases hk' : k = r'
        · simp [hk']
        · simp [hk', ih]

theorem assocGet_assocSet_self (c : ConnId) (r : RoomKey)
    (l : List (ConnId × RoomKey)) : assocGet c (assocSet c r l) = some r := by
  induction l with
  | nil => simp [assocGet, assocSet]
  | cons p rest ih =>
      obtain ⟨c', r'⟩ := p
      by_cases hc : c' = c
      · simp [assocGet, assocSet, hc]
      · simp [assocGet, assocSet, hc, ih]

theorem assocGet_assocSet_ne {c c' : ConnId} (hne : c' ≠ c) (r : RoomKey)
    (l : List (ConnId × RoomKey)) :
    assocGet c' (assocSet c r l) = assocGet c' l := by
  induction l with
  | nil => simp [assocGet, assocSet, Ne.symm hne]
  | cons p rest ih =>
      obtain ⟨c'', r''⟩ := p
      by_cases hc : c'' = c
      · subst hc
        simp [assocGet, assocSet, Ne.symm hne]
      · simp only [assocSet, if_neg hc, assocGet]
        by_cases hc' : c'' = c'
        · simp [hc']
        · simp [hc', ih]

theorem setAdd_eq_of_mem {c : ConnId} {l : List ConnId} (h : c ∈ l) :
    setAdd c l = l := by simp [setAdd, h]

theorem setAdd_eq_append {c : ConnId} {l : List ConnId} (h : c ∉ l) :
    setAdd c l = l ++ [c] := by simp [setAdd, h]

theorem mem_setAdd {c c' : ConnId} {l : List ConnId} :
    c ∈ setAdd c' l ↔ c ∈ l ∨ c = c' := by
  unfold setAdd
  split
  · next h => constructor
              · exact fun hm => Or.inl hm
              · rintro (hm | rfl)
                · exact hm
                · exact h
  · simp

theorem mem_setDelete {c c' : ConnId} {l : List ConnId} :
    c ∈ setDelete c' l ↔ c ∈ l ∧ c ≠ c' := by
  simp [setDelete]

theorem setAdd_nodup {c : ConnId} {l : List ConnId} (h : l.Nodup) :
    (setAdd c l).Nodup := by
  unfold setAdd
  split
  · exact h
  · next hnm => simp [List.nodup_append, h, hnm]

theorem setDelete_nodup {c : ConnId} {l : List ConnId} (h : l.Nodup) :
    (setDelete c l).Nodup := List.Nodup.filter _ h

/-! ## Characterizations of the handlers -/

theorem mapGet_joinRooms_self (s : ServerState) (c : ConnId) (room : RoomKey) :
    mapGet room (joinRooms s c room) = some (setAdd c (s.members room)) := by
  unfold joinRooms ServerState.members
  cases h : mapGet room s.rooms with
  | none =>
      simp only [h, Option.isSome_none, Bool.false_eq_true, if_false,
        Option.getD_none]
      rw [mapGet_mapUpdate_self, mapGet_append_none h]
      simp [mapGet]
  | some v =>
      simp only [h, Option.isSome_some, if_true, Option.getD_some]
      rw [mapGet_mapUpdate_self, h]
      rfl

theorem mapGet_joinRooms_ne (s : ServerState) (c : ConnId) {room r' : RoomKey}
    (hne : r' ≠ room) : mapGet r' (joinRooms s c room) = mapGet r' s.rooms := by
  unfold joinRooms
  simp only []
  rw [mapGet_mapUpdate_ne hne]
  cases h : mapGet r' s.rooms with
  | none =>
      split
      · exact h
      · rw [mapGet_append_none h]
        simp [mapGet, Ne.symm hne]
  | some v =>
      split
      · exact h
      · exact mapGet_append_some h

theorem handleJoin_fst (s : ServerState) (c : ConnId) (room : RoomKey) :
    (handleJoin s c room).1 =
      { s with rooms := joinRooms s c room, roomId := assocSet c room s.roomId } := by
  unfold handleJoin
  simp only []
  split
  · rfl
  · split
    · rfl
    · rfl

theorem handleJoin_members_self (s : ServerState) (c : ConnId) (room : RoomKey) :
    ((handleJoin s c room).1).members room = setAdd c (s.members room) := by
  rw [handleJoin_fst]
  show (mapGet room (joinRooms s c room)).getD [] = _
  rw [mapGet_joinRooms_self]
  rfl

theorem handleJoin_members_ne (s : ServerState) (c : ConnId) {room r' : RoomKey}
    (hne : r' ≠ room) : ((handleJoin s c room).1).members r' = s.members r' := by
  rw [handleJoin_fst]
  show (mapGet r' (joinRooms s c room)).getD [] = _
  rw [mapGet_joinRooms_ne s c hne]
  rfl

theorem onMessage_join {d : JsonMsg} (s : ServerState) (c : ConnId)
    (h : d.type = some "join") :
    onMessage s c (some d) = handleJoin s c d.room := by
  simp [onMessage, h]

theorem not_join_of_forwardType {t : Option String} (hf : forwardType t) :
    ¬t = some "join" := by
  rcases hf with h | h | h <;> simp [h]

theorem onMessage_forward {d : JsonMsg} (s : ServerState) (c : ConnId)
    (hf : forwardType d.type) :
    onMessage s c (some d) = (s, broadcastSends s d.room d c) := by
  simp [onMessage, not_join_of_forwardType hf, hf, handleForward]

theorem handleJoin_empty (s : ServerState) (c : ConnId) (room : RoomKey)
    (h : s.members room = []) :
    handleJoin s c room =
      ({ s with rooms := joinRooms s c room, roomId := assocSet c room s.roomId },
        [(c, joinedMsg)]) := by
  have hm := mapGet_joinRooms_self s c room
  rw [h] at hm
  simp only [setAdd, List.not_mem_nil, if_false, List.nil_append] at hm
  unfold handleJoin
  simp [hm]

theorem handleJoin_one {s : ServerState} {c a : ConnId} {room : RoomKey}
    (h : s.members room = [a]) (hne : c ≠ a) :
    handleJoin s c room =
      ({ s with rooms := joinRooms s c room, roomId := assocSet c room s.roomId },
        broadcastSends
          { s with rooms := joinRooms s c room, roomId := assocSet c room s.roomId }
          room readyMsg c) := by
  have hm := mapGet_joinRooms_self s c room
  rw [h] at hm
  rw [setAdd_eq_append (by simp [hne])] at hm
  unfold handleJoin
  simp [hm]

theorem handleJoin_two {s : ServerState} {c : ConnId} {room : RoomKey}
    {l : List ConnId} (h : s.members room = l) (hlen : l.length = 2)
    (hc : c ∉ l) :
    handleJoin s c room =
      ({ s with rooms := joinRooms s c room, roomId := assocSet c room s.roomId },
        []) := by
  have hm := mapGet_joinRooms_self s c room
  rw [h] at hm
  rw [setAdd_eq_append hc] at hm
  unfold handleJoin
  simp [hm, hlen]

theorem handleClose_noRoomId {s : ServerState} {c : ConnId}
    (h : assocGet c s.roomId = none) :
    handleClose s c =
      ({ s with openConns := s.openConns.filter (fun x => x ≠ c) }, []) := by
  unfold handleClose
  simp [h]

theorem handleClose_falsy {s : ServerState} {c : ConnId} {rk : RoomKey}
    (h : assocGet c s.roomId = some rk) (ht : keyTruthy rk = false) :
    handleClose s c =
      ({ s with openConns := s.openConns.filter (fun x => x ≠ c) }, []) := by
  unfold handleClose
  simp [h, ht]

theorem handleClose_absent {s : ServerState} {c : ConnId} {rk : RoomKey}
    (h : assocGet c s.roomId = some rk) (ha : mapGet rk s.rooms = none) :
    handleClose s c =
      ({ s with openConns := s.openConns.filter (fun x => x ≠ c) }, []) := by
  unfold handleClose
  simp [h, ha]

theorem handleClose_remove {s : ServerState} {c : ConnId} {rk : RoomKey}
    {l : List ConnId} (h : assocGet c s.roomId = some rk)
    (ht : keyTruthy rk = true) (hs : mapGet rk s.rooms = some l) :
    handleClose s c =
      ({ s with openConns := s.openConns.filter (fun x => x ≠ c),
                rooms := mapUpdate rk (setDelete c) s.rooms },
        broadcastSends
          { s with openConns := s.openConns.filter (fun x => x ≠ c),
                   rooms := mapUpdate rk (setDelete c) s.rooms }
          rk leaveMsg c) := by
  unfold handleClose
  simp [h, ht, hs]

theorem handleClose_roomId (s : ServerState) (c : ConnId) :
    ((handleClose s c).1).roomId = s.roomId := by
  cases h : assocGet c s.roomId with
  | none => rw [handleClose_noRoomId h]
  | some rk =>
      cases ht : keyTruthy rk with
      | false => rw [handleClose_falsy h ht]
      | true =>
          cases hs : mapGet rk s.rooms with
          | none => rw [handleClose_absent h hs]
          | some l => rw [handleClose_remove h ht hs]

theorem handleClose_members_cases (s : ServerState) (c : ConnId) (r : RoomKey) :
    ((handleClose s c).1).members r = s.members r ∨
    ((handleClose s c).1).members r = setDelete c (s.members r) := by
  cases h : assocGet c s.roomId with
  | none => rw [handleClose_noRoomId h]; exact Or.inl rfl
  | some rk =>
      cases ht : keyTruthy rk with
      | false => rw [handleClose_falsy h ht]; exact Or.inl rfl
      | true =>
          cases hs : mapGet rk s.rooms with
          | none => rw [handleClose_absent h hs]; exact Or.inl rfl
          | some l =>
              rw [handleClose_remove h ht hs]
              by_cases hr : r = rk
              · subst hr
                refine Or.inr ?_
                show (mapGet r (mapUpdate r (setDelete c) s.rooms)).getD [] = _
                rw [mapGet_mapUpdate_self]
                unfold ServerState.members
                rw [hs]
                rfl
              · refine Or.inl ?_
                show (mapGet r (mapUpdate rk (setDelete c) s.rooms)).getD [] = _
                rw [mapGet_mapUpdate_ne hr]
                rfl

/-! ## Event predicates and step-level lemmas -/

/-- `e` is a (well-parsed) join request sent by connection `c`. -/
def isJoinBy (c : ConnId) : Event → Bool
  | .message c' (some d) => c' == c && d.type == some "join"
  | _ => false

/-- The sender of `e` when `e` is a join request for room key `rk`. -/
def joinerFor (rk : RoomKey) : Event → Option ConnId
  | .message c (some d) =>
      if d.type = some "join" ∧ d.room = rk then some c else none
  | _ => none

/-- All connections that send a join request for room key `rk` in `es`. -/
def joinersFor (rk : RoomKey) (es : List Event) : List ConnId :=
  es.filterMap (joinerFor rk)

theorem onMessage_fst_of_not_join {d : JsonMsg} (s : ServerState) (c : ConnId)
    (hj : ¬d.type = some "join") : (onMessage s c (some d)).1 = s := by
  simp only [onMessage]
  rw [if_neg hj]
  split
  · rfl
  · rfl

theorem step_members_noJoin {c : ConnId} {e : Event}
    (h : isJoinBy c e = false) (s : ServerState) (r : RoomKey)
    (hm : c ∈ ((step s e).1).members r) : c ∈ s.members r := by
  cases e with
  | connect c' => exact hm
  | disconnect c' =>
      rcases handleClose_members_cases s c' r with hc | hc
      · rw [show (step s (.disconnect c')).1 = (handleClose s c').1 from rfl] at hm
        rw [hc] at hm
        exact hm
      · rw [show (step s (.disconnect c')).1 = (handleClose s c').1 from rfl] at hm
        rw [hc] at hm
        exact (mem_setDelete.mp hm).1
  | message c' raw =>
      cases raw with
      | none => exact hm
      | some d =>
          by_cases hj : d.type = some "join"
          · have hcc : ¬c' = c := by
              intro hcc
              rw [isJoinBy] at h
              simp [hcc, hj] at h
            rw [show (step s (.message c' (some d))).1 = (onMessage s c' (some d)).1 from rfl,
              onMessage_join s c' hj] at hm
            by_cases hr : r = d.room
            · subst hr
              rw [handleJoin_members_self] at hm
              rcases mem_setAdd.mp hm with h1 | h1
              · exact h1
              · exact absurd h1.symm hcc
            · rw [handleJoin_members_ne s c' hr] at hm
              exact hm
          · rw [show (step s (.message c' (some d))).1 = (onMessage s c' (some d)).1 from rfl,
              onMessage_fst_of_not_join s c' hj] at hm
            exact hm

theorem step_roomId_noJoin {c : ConnId} {e : Event}
    (h : isJoinBy c e = false) (s : ServerState) :
    assocGet c ((step s e).1).roomId = assocGet c s.roomId := by
  cases e with
  | connect c' => rfl
  | disconnect c' =>
      rw [show (step s (.disconnect c')).1 = (handleClose s c').1 from rfl,
        handleClose_roomId]
  | message c' raw =>
      cases raw with
      | none => rfl
      | some d =>
          by_cases hj : d.type = some "join"
          · have hcc : ¬c' = c := by
              intro hcc
              rw [isJoinBy] at h
              simp [hcc, hj] at h
            rw [show (step s (.message c' (some d))).1 = (onMessage s c' (some d)).1 from rfl,
              onMessage_join s c' hj, handleJoin_fst]
            exact assocGet_assocSet_ne (fun hx => hcc hx.symm) d.room s.roomId
          · rw [show (step s (.message c' (some d))).1 = (onMessage s c' (some d)).1 from rfl,
              onMessage_fst_of_not_join s c' hj]

theorem step_members_subset (s : ServerState) (e : Event) (r : RoomKey) :
    ((step s e).1).members r ⊆ s.members r ++ joinersFor r [e] := by
  cases e with
  | connect c' => exact fun x hx => List.mem_append_left _ hx
  | disconnect c' =>
      intro x hx
      rcases handleClose_members_cases s c' r with hc | hc
      · rw [show (step s (.disconnect c')).1 = (handleClose s c').1 from rfl, hc] at hx
        exact List.mem_append_left _ hx
      · rw [show (step s (.disconnect c')).1 = (handleClose s c').1 from rfl, hc] at hx
        exact List.mem_append_left _ (mem_setDelete.mp hx).1
  | message c' raw =>
      cases raw with
      | none => exact fun x hx => List.mem_append_left _ hx
      | some d =>
          by_cases hj : d.type = some "join"
          · by_cases hr : d.room = r
            · intro x hx
              rw [show (step s (.message c' (some d))).1 = (onMessage s c' (some d)).1 from rfl,
                onMessage_join s c' hj, hr, handleJoin_members_self] at hx
              rcases mem_setAdd.mp hx with h1 | h1
              · exact List.mem_append_left _ h1
              · refine List.mem_append_right _ ?_
                subst h1
                simp [joinersFor, joinerFor, hj, hr]
            · intro x hx
              rw [show (step s (.message c' (some d))).1 = (onMessage s c' (some d)).1 from rfl,
                onMessage_join s c' hj,
                handleJoin_members_ne s c' (fun hx' => hr hx'.symm)] at hx
              exact List.mem_append_left _ hx
          · intro x hx
            rw [show (step s (.message c' (some d))).1 = (onMessage s c' (some d)).1 from rfl,
              onMessage_fst_of_not_join s c' hj] at hx
            exact List.mem_append_left _ hx

theorem step_members_nodup (s : ServerState) (e : Event) (r : RoomKey)
    (h : (s.members r).Nodup) : (((step s e).1).members r).Nodup := by
  cases e with
  | connect c' => exact h
  | disconnect c' =>
      rcases handleClose_members_cases s c' r with hc | hc
      · rw [show (step s (.disconnect c')).1 = (handleClose s c').1 from rfl, hc]
        exact h
      · rw [show (step s (.disconnect c')).1 = (handleClose s c').1 from rfl, hc]
        exact setDelete_nodup h
  | message c' raw =>
      cases raw with
      | none => exact h
      | some d =>
          by_cases hj : d.type = some "join"
          · by_cases hr : r = d.room
            · subst hr
              rw [show (step s (.message c' (some d))).1 = (onMessage s c' (some d)).1 from rfl,
                onMessage_join s c' hj, handleJoin_members_self]
              exact setAdd_nodup h
            · rw [show (step s (.message c' (some d))).1 = (onMessage s c' (some d)).1 from rfl,
                onMessage_join s c' hj, handleJoin_members_ne s c' hr]
              exact h
          · rw [show (step s (.message c' (some d))).1 = (onMessage s c' (some d)).1 from rfl,
              onMessage_fst_of_not_join s c' hj]
            exact h

/-! ## Trace-level lemmas -/

theorem steps_fst_cons (s : ServerState) (e : Event) (es : List Event) :
    (steps s (e :: es)).1 = (steps (step s e).1 es).1 := rfl

theorem steps_snd_cons (s : ServerState) (e : Event) (es : List Event) :
    (steps s (e :: es)).2 = (step s e).2 ++ (steps (step s e).1 es).2 := rfl

theorem steps_members_noJoin {c : ConnId} :
    ∀ (es : List Event), (∀ e ∈ es, isJoinBy c e = false) →
    ∀ (s : ServerState) (r : RoomKey),
    c ∈ ((steps s es).1).members r → c ∈ s.members r := by
  intro es
  induction es with
  | nil => intro _ s r hm; exact hm
  | cons e es ih =>
      intro h s r hm
      rw [steps_fst_cons] at hm
      have h1 := ih (fun e' he' => h e' (List.mem_cons_of_mem e he')) (step s e).1 r hm
      exact step_members_noJoin (h e (List.mem_cons_self e es)) s r h1

theorem steps_roomId_noJoin {c : ConnId} :
    ∀ (es : List Event), (∀ e ∈ es, isJoinBy c e = false) →
    ∀ (s : ServerState),
    assocGet c ((steps s es).1).roomId = assocGet c s.roomId := by
  intro es
  induction es with
  | nil => intro _ s; rfl
  | cons e es ih =>
      intro h s
      rw [steps_fst_cons,
        ih (fun e' he' => h e' (List.mem_cons_of_mem e he')) (step s e).1,
        step_roomId_noJoin (h e (List.mem_cons_self e es)) s]

theorem joinersFor_cons (r : RoomKey) (e : Event) (es : List Event) :
    joinersFor r (e :: es) = joinersFor r [e] ++ joinersFor r es := by
  simp only [joinersFor, List.filterMap_cons]
  cases joinerFor r e with
  | none => simp
  | some c => simp

theorem steps_members_subset :
    ∀ (es : List Event) (s : ServerState) (r : RoomKey),
    ((steps s es).1).members r ⊆ s.members r ++ joinersFor r es := by
  intro es
  induction es with
  | nil => intro s r x hx; exact List.mem_append_left _ hx
  | cons e es ih =>
      intro s r x hx
      rw [steps_fst_cons] at hx
      have h1 := ih (step s e).1 r hx
      rw [joinersFor_cons]
      rcases List.mem_append.mp h1 with h2 | h2
      · have h3 := step_members_subset s e r h2
        rcases List.mem_append.mp h3 with h4 | h4
        · exact List.mem_append_left _ h4
        · exact List.mem_append_right _ (List.mem_append_left _ h4)
      · exact List.mem_append_right _ (List.mem_append_right _ h2)

theorem steps_members_nodup :
    ∀ (es : List Event) (s : ServerState) (r : RoomKey),
    (s.members r).Nodup → (((steps s es).1).members r).Nodup := by
  intro es
  induction es with
  | nil => intro s r h; exact h
  | cons e es ih =>
      intro s r h
      rw [steps_fst_cons]
      exact ih (step s e).1 r (step_members_nodup s e r h)

/-- A connection that sends at most one join request over a whole trace,
and starts outside every member set, ends with its `roomId` naming every
room that holds it. -/
theorem joinOnce_roomId {c : ConnId} :
    ∀ (es : List Event) (s : ServerState),
    es.countP (isJoinBy c) ≤ 1 → (∀ r', c ∉ s.members r') →
    ∀ r, c ∈ ((steps s es).1).members r →
    assocGet c ((steps s es).1).roomId = some r := by
  intro es
  induction es with
  | nil => intro s _ hout r hm; exact absurd hm (hout r)
  | cons e es ih =>
      intro s hcount hout r hm
      cases hj : isJoinBy c e with
      | false =>
          rw [steps_fst_cons] at hm ⊢
          have hcount' : es.countP (isJoinBy c) ≤ 1 := by
            rw [List.countP_cons] at hcount
            omega
          have hout' : ∀ r', c ∉ ((step s e).1).members r' := fun r' hmem =>
            hout r' (step_members_noJoin hj s r' hmem)
          exact ih (step s e).1 hcount' hout' r hm
      | true =>
          cases e with
          | connect c' => simp [isJoinBy] at hj
          | disconnect c' => simp [isJoinBy] at hj
          | message c' raw =>
              cases raw with
              | none => simp [isJoinBy] at hj
              | some d =>
                  simp only [isJoinBy, Bool.and_eq_true, beq_iff_eq] at hj
                  obtain ⟨hc', hd⟩ := hj
                  subst hc'
                  have hstep : (step s (Event.message c' (some d))) =
                      handleJoin s c' d.room := onMessage_join s c' hd
                  have hcount0 : ∀ e' ∈ es, isJoinBy c' e' = false := by
                    have h1 : es.countP (isJoinBy c') = 0 := by
                      rw [List.countP_cons_of_pos] at hcount
                      · omega
                      · simp [isJoinBy, hd]
                    intro e' he'
                    have := List.countP_eq_zero.mp h1 e' he'
                    simpa using this
                  rw [steps_fst_cons, hstep] at hm ⊢
                  have hmem1 : c' ∈ ((handleJoin s c' d.room).1).members r :=
                    steps_members_noJoin es hcount0 (handleJoin s c' d.room).1 r hm
                  have hr : r = d.room := by
                    by_cases hreq : r = d.room
                    · exact hreq
                    · rw [handleJoin_members_ne s c' hreq] at hmem1
                      exact absurd hmem1 (hout r)
                  rw [steps_roomId_noJoin es hcount0 (handleJoin s c' d.room).1,
                    handleJoin_fst]
                  show assocGet c' (assocSet c' d.room s.roomId) = some r
                  rw [assocGet_assocSet_self, hr]

theorem handleClose_rooms_cases (s : ServerState) (c : ConnId) :
    ((handleClose s c).1).rooms = s.rooms ∨
    ∃ rk, ((handleClose s c).1).rooms = mapUpdate rk (setDelete c) s.rooms := by
  cases h : assocGet c s.roomId with
  | none => rw [handleClose_noRoomId h]; exact Or.inl rfl
  | some rk =>
      cases ht : keyTruthy rk with
      | false => rw [handleClose_falsy h ht]; exact Or.inl rfl
      | true =>
          cases hs : mapGet rk s.rooms with
          | none => rw [handleClose_absent h hs]; exact Or.inl rfl
          | some l => rw [handleClose_remove h ht hs]; exact Or.inr ⟨rk, rfl⟩

/-- Every recipient of a broadcast is a member of the target room, other
than the sender, with an open socket, and receives exactly `msg`. -/
theorem mem_broadcastSends {s : ServerState} {room : RoomKey} {msg : JsonMsg}
    {sender c : ConnId} {m : JsonMsg}
    (h : (c, m) ∈ broadcastSends s room msg sender) :
    c ∈ s.members room ∧ m = msg ∧ c ≠ sender ∧ c ∈ s.openConns := by
  unfold broadcastSends at h
  cases hh : mapGet room s.rooms with
  | none => rw [hh] at h; simp at h
  | some clients =>
      rw [hh] at h
      rcases List.mem_map.mp h with ⟨c', hc', heq⟩
      have hc1 : c' = c := congrArg Prod.fst heq
      have hc2 : msg = m := congrArg Prod.snd heq
      subst hc1
      have hfil := List.mem_filter.mp hc'
      have hprop := of_decide_eq_true hfil.2
      refine ⟨?_, hc2.symm, hprop.1, hprop.2⟩
      unfold ServerState.members
      rw [hh]
      exact hfil.1

theorem broadcastSends_eq {s : ServerState} {room : RoomKey}
    {l : List ConnId} (h : mapGet room s.rooms = some l) (msg : JsonMsg)
    (sender : ConnId) :
    broadcastSends s room msg sender =
      (l.filter (fun c => c ≠ sender ∧ c ∈ s.openConns)).map
        (fun c => (c, msg)) := by
  unfold broadcastSends
  rw [h]

theorem broadcastSends_none {s : ServerState} {room : RoomKey}
    (h : mapGet room s.rooms = none) (msg : JsonMsg) (sender : ConnId) :
    broadcastSends s room msg sender = [] := by
  unfold broadcastSends
  rw [h]

/-! ## The claims -/

/-- C1: Join sequencing.  For any room key `R`: a join sent by `A` while
`R` has no members makes the broker send `{type:"joined"}` to `A` and to
no other connection, leaving `A` as the sole member; a subsequent join by
a second connection `B` (with `A` still connected) makes the broker send
`{type:"ready"}` to every member except the sender `B` — that is, to `A`
only — and `B` receives no reply to its join. -/
theorem join_sequencing :
    (∀ (s : ServerState) (A : ConnId) (R : String) (d : JsonMsg),
      d.type = some "join" → d.room = some R →
      s.members (some R) = [] →
      (onMessage s A (some d)).2 = [(A, joinedMsg)] ∧
      ((onMessage s A (some d)).1).members (some R) = [A])
    ∧
    (∀ (s : ServerState) (A B : ConnId) (R : String) (d : JsonMsg),
      d.type = some "join" → d.room = some R →
      s.members (some R) = [A] → B ≠ A → A ∈ s.openConns →
      (onMessage s B (some d)).2 = [(A, readyMsg)]) := by
  constructor
  · intro s A R d ht hr hmem
    rw [onMessage_join s A ht, hr]
    constructor
    · rw [handleJoin_empty s A (some R) hmem]
    · rw [handleJoin_members_self, hmem]
      rfl
  · intro s A B R d ht hr hmem hBA hopen
    rw [onMessage_join s B ht, hr, handleJoin_one hmem hBA]
    have hget : mapGet (some R) (joinRooms s B (some R)) = some [A, B] := by
      rw [mapGet_joinRooms_self, hmem, setAdd_eq_append (by simp [hBA])]
      rfl
    show broadcastSends _ (some R) readyMsg B = _
    rw [broadcastSends_eq hget]
    have hAB : A ≠ B := fun h => hBA h.symm
    simp [List.filter_cons, hAB, hopen]

/-- Witness for C1 at a concrete room and pair of connections. -/
theorem join_sequencing_witness :
    (onMessage initState 1 (some ⟨some "join", some "lobby", []⟩)).2 =
      [(1, joinedMsg)] ∧
    (onMessage ⟨[(some "lobby", [1])], [(1, some "lobby")], [1]⟩ 2
      (some ⟨some "join", some "lobby", []⟩)).2 = [(1, readyMsg)] :=
  ⟨(join_sequencing.1 initState 1 "lobby" ⟨some "join", some "lobby", []⟩
      rfl rfl (by decide)).1,
   join_sequencing.2 ⟨[(some "lobby", [1])], [(1, some "lobby")], [1]⟩ 1 2
      "lobby" ⟨some "join", some "lobby", []⟩ rfl rfl (by decide) (by decide)
      (by decide)⟩

/-- C2: Forwarding.  If room `R`'s member set is exactly `{A, B}` with
both sockets open, a message of a forward type (`offer`, `answer`,
`candidate`) sent by `A` and scoped to `R` is delivered, with exactly the
same fields, to `B` and to nobody else (in particular never back to `A`),
and the state is unchanged.  The statement is symmetric in `A` and `B`,
so the same holds for messages sent by `B`. -/
theorem forwarding :
    ∀ (s : ServerState) (A B : ConnId) (R : String) (d : JsonMsg)
      (l : List ConnId),
      forwardType d.type → d.room = some R →
      mapGet (some R) s.rooms = some l → (l = [A, B] ∨ l = [B, A]) →
      A ≠ B → A ∈ s.openConns → B ∈ s.openConns →
      onMessage s A (some d) = (s, [(B, d)]) := by
  intro s A B R d l hf hr hget hl hAB hAo hBo
  rw [onMessage_forward s A hf, hr]
  have hBA : B ≠ A := fun h => hAB h.symm
  rcases hl with rfl | rfl
  · rw [broadcastSends_eq hget]
    simp [List.filter_cons, hAB, hBA, hBo]
  · rw [broadcastSends_eq hget]
    simp [List.filter_cons, hAB, hBA, hBo]

/-- Witness for C2 at a concrete state and message. -/
theorem forwarding_witness :
    onMessage ⟨[(some "r", [1, 2])], [(1, some "r"), (2, some "r")], [1, 2]⟩ 1
      (some ⟨some "offer", some "r", [("sdp", "v")]⟩) =
      (⟨[(some "r", [1, 2])], [(1, some "r"), (2, some "r")], [1, 2]⟩,
        [(2, ⟨some "offer", some "r", [("sdp", "v")]⟩)]) :=
  forwarding ⟨[(some "r", [1, 2])], [(1, some "r"), (2, some "r")], [1, 2]⟩
    1 2 "r" ⟨some "offer", some "r", [("sdp", "v")]⟩ [1, 2]
    (Or.inl rfl) rfl (by decide) (Or.inl rfl) (by decide) (by decide)
    (by decide)

/-- Counterexample to C3 as stated: connection `2` is not a member of
room `"r"` (whose sole member is `1`), yet its `offer` scoped to `"r"` is
delivered to `1` — the broker does not send nothing. -/
theorem foreign_room_counterexample :
    2 ∉ (ServerState.members ⟨[(some "r", [1])], [(1, some "r")], [1]⟩
      (some "r")) ∧
    (onMessage ⟨[(some "r", [1])], [(1, some "r")], [1]⟩ 2
      (some ⟨some "offer", some "r", []⟩)).2 =
      [(1, ⟨some "offer", some "r", []⟩)] ∧
    (onMessage ⟨[(some "r", [1])], [(1, some "r")], [1]⟩ 2
      (some ⟨some "offer", some "r", []⟩)).2 ≠ [] := by
  refine ⟨by decide, by decide, by decide⟩

/-- C3 (amended): Foreign-room no-op.  Processing a forward-type message
never changes any state; and when the named room key is absent from the
registry the broker also sends nothing.  (The original claim's further
case — sender not a member of an existing room — is not a no-op: the
message is delivered to the room's open members, see the
counterexample.) -/
theorem foreign_room_noop :
    (∀ (s : ServerState) (C : ConnId) (d : JsonMsg),
      forwardType d.type → (onMessage s C (some d)).1 = s)
    ∧
    (∀ (s : ServerState) (C : ConnId) (d : JsonMsg) (R : String),
      forwardType d.type → d.room = some R →
      mapGet (some R) s.rooms = none →
      (onMessage s C (some d)).2 = []) := by
  constructor
  · intro s C d hf
    rw [onMessage_forward s C hf]
  · intro s C d R hf hr hget
    rw [onMessage_forward s C hf, hr, broadcastSends_none hget]

/-- Witness for C3's amended statement at a concrete state. -/
theorem foreign_room_noop_witness :
    (onMessage ⟨[(some "r", [1])], [(1, some "r")], [1]⟩ 2
      (some ⟨some "answer", some "q", []⟩)).1 =
      ⟨[(some "r", [1])], [(1, some "r")], [1]⟩ ∧
    (onMessage ⟨[(some "r", [1])], [(1, some "r")], [1]⟩ 2
      (some ⟨some "answer", some "q", []⟩)).2 = [] :=
  ⟨foreign_room_noop.1 ⟨[(some "r", [1])], [(1, some "r")], [1]⟩ 2
      ⟨some "answer", some "q", []⟩ (Or.inr (Or.inl rfl)),
   foreign_room_noop.2 ⟨[(some "r", [1])], [(1, some "r")], [1]⟩ 2
      ⟨some "answer", some "q", []⟩ "q" (Or.inr (Or.inl rfl)) rfl
      (by decide)⟩

/-- Counterexample to C4 as stated: connection `0` joins room `"a"` and
then room `"b"`.  It is still a member of `"a"`'s set, but its remembered
room key is `"b"`, not `"a"`. -/
theorem membership_key_counterexample :
    0 ∈ ((steps initState
      [Event.message 0 (some ⟨some "join", some "a", []⟩),
       Event.message 0 (some ⟨some "join", some "b", []⟩)]).1).members
      (some "a") ∧
    assocGet 0 ((steps initState
      [Event.message 0 (some ⟨some "join", some "a", []⟩),
       Event.message 0 (some ⟨some "join", some "b", []⟩)]).1).roomId =
      some (some "b") ∧
    some (some "b") ≠ (some (some "a") : Option RoomKey) := by
  refine ⟨by decide, by decide, by decide⟩

/-- C4 (amended): Membership-key invariant for single joiners.  In every
state reachable from the initial state, every connection that sent at
most one join message over the whole event sequence and is present in
some room's member set has its remembered room key equal to that room's
key.  (A connection that joins twice can be left in a member set whose
key differs from its `roomId`, see the counterexample.) -/
theorem membership_key_invariant :
    ∀ (es : List Event) (c : ConnId),
      es.countP (isJoinBy c) ≤ 1 →
      ∀ r, c ∈ ((steps initState es).1).members r →
      assocGet c ((steps initState es).1).roomId = some r := by
  intro es c h r hm
  refine joinOnce_roomId es initState h (fun r' hmem => ?_) r hm
  have : initState.members r' = [] := rfl
  rw [this] at hmem
  exact absurd hmem (List.not_mem_nil c)

/-- Witness for C4's amended statement on a concrete two-event trace. -/
theorem membership_key_invariant_witness :
    ([Event.message 1 (some ⟨some "join", some "lobby", []⟩),
      Event.message 2 (some ⟨some "join", some "lobby", []⟩)]).countP
      (isJoinBy 1) ≤ 1 ∧
    1 ∈ ((steps initState
      [Event.message 1 (some ⟨some "join", some "lobby", []⟩),
       Event.message 2 (some ⟨some "join", some "lobby", []⟩)]).1).members
      (some "lobby") ∧
    assocGet 1 ((steps initState
      [Event.message 1 (some ⟨some "join", some "lobby", []⟩),
       Event.message 2 (some ⟨some "join", some "lobby", []⟩)]).1).roomId =
      some (some "lobby") :=
  ⟨by decide, by decide,
   membership_key_invariant
     [Event.message 1 (some ⟨some "join", some "lobby", []⟩),
      Event.message 2 (some ⟨some "join", some "lobby", []⟩)] 1
     (by decide) (some "lobby") (by decide)⟩

/-- Counterexample to C5 as stated: three distinct connections join room
`"r"` and its member set then holds 3 connections. -/
theorem two_member_counterexample :
    (((steps initState
      [Event.message 0 (some ⟨some "join", some "r", []⟩),
       Event.message 1 (some ⟨some "join", some "r", []⟩),
       Event.message 2 (some ⟨some "join", some "r", []⟩)]).1).members
      (some "r")).length = 3 ∧
    ¬(((steps initState
      [Event.message 0 (some ⟨some "join", some "r", []⟩),
       Event.message 1 (some ⟨some "join", some "r", []⟩),
       Event.message 2 (some ⟨some "join", some "r", []⟩)]).1).members
      (some "r")).length ≤ 2 := by
  refine ⟨by decide, by decide⟩

/-- C5 (amended): Two-member invariant under at most two joiners.  In
every state reachable from the initial state, a room's member set holds
at most 2 connections provided at most 2 distinct connections sent a
join for that room's key over the whole event sequence.  (A third
distinct joiner is added without limit, see the counterexample.) -/
theorem two_member_invariant :
    ∀ (es : List Event) (rk : RoomKey),
      (joinersFor rk es).toFinset.card ≤ 2 →
      (((steps initState es).1).members rk).length ≤ 2 := by
  intro es rk h
  have hnil : initState.members rk = [] := rfl
  have hnd : (((steps initState es).1).members rk).Nodup :=
    steps_members_nodup es initState rk (by rw [hnil]; exact List.nodup_nil)
  have hsub : ((steps initState es).1).members rk ⊆ joinersFor rk es := by
    intro x hx
    have h1 := steps_members_subset es initState rk hx
    rw [hnil, List.nil_append] at h1
    exact h1
  calc (((steps initState es).1).members rk).length
      = (((steps initState es).1).members rk).toFinset.card :=
        (List.toFinset_card_of_nodup hnd).symm
    _ ≤ (joinersFor rk es).toFinset.card := by
        refine Finset.card_le_card (fun x hx => ?_)
        rw [List.mem_toFinset] at hx ⊢
        exact hsub hx
    _ ≤ 2 := h

/-- Witness for C5's amended statement on a concrete trace with two
joiners. -/
theorem two_member_invariant_witness :
    (joinersFor (some "r")
      [Event.message 1 (some ⟨some "join", some "r", []⟩),
       Event.message 2 (some ⟨some "join", some "r", []⟩)]).toFinset.card ≤ 2 ∧
    (((steps initState
      [Event.message 1 (some ⟨some "join", some "r", []⟩),
       Event.message 2 (some ⟨some "join", some "r", []⟩)]).1).members
      (some "r")).length ≤ 2 :=
  ⟨by decide,
   two_member_invariant
     [Event.message 1 (some ⟨some "join", some "r", []⟩),
      Event.message 2 (some ⟨some "join", some "r", []⟩)] (some "r")
     (by decide)⟩

/-- C6: Malformed-input resilience.  A payload that fails to parse
produces no reply and no state change, and the rest of the trace is
processed exactly as if the malformed message had never arrived (in
particular, with `es = []`, processing it alone returns the state
unchanged with no sends). -/
theorem malformed_input_resilience :
    ∀ (s : ServerState) (c : ConnId) (es : List Event),
      steps s (Event.message c none :: es) = steps s es := by
  intro s c es
  rfl

/-- Counterexample to C7 as stated: in the room with key `""` (a valid,
joinable key), the member set is exactly `{1, 2}`, yet when `1`
disconnects it is not removed and `2` receives no `leave` — the close
handler's JS-truthiness guard `if (roomId && ...)` treats the empty
string as falsy.  The only sends of the whole trace are the `joined` and
`ready` replies to the two joins. -/
theorem disconnect_notification_counterexample :
    ((steps initState
      [Event.connect 1, Event.connect 2,
       Event.message 1 (some ⟨some "join", some "", []⟩),
       Event.message 2 (some ⟨some "join", some "", []⟩),
       Event.disconnect 1]).1).members (some "") = [1, 2] ∧
    (steps initState
      [Event.connect 1, Event.connect 2,
       Event.message 1 (some ⟨some "join", some "", []⟩),
       Event.message 2 (some ⟨some "join", some "", []⟩),
       Event.disconnect 1]).2 = [(1, joinedMsg), (1, readyMsg)] := by
  refine ⟨by decide, by decide⟩

/-- C7 (amended): Disconnect notification for nonempty room keys.  When
`A` disconnects while its remembered room key is a nonempty `R` whose
member set is exactly `{A, B}` with `B` open, `A` is removed from `R`'s
member set, `B` receives exactly one `leave` message, and `A` receives
nothing; when the disconnecting connection has no remembered room key,
or its room is absent from the registry, no room state changes and
nothing is sent.  (For the empty-string key the cleanup is skipped
entirely, see the counterexample.) -/
theorem disconnect_notification :
    (∀ (s : ServerState) (A B : ConnId) (R : String) (l : List ConnId),
      R ≠ "" → assocGet A s.roomId = some (some R) →
      mapGet (some R) s.rooms = some l → (l = [A, B] ∨ l = [B, A]) →
      A ≠ B → B ∈ s.openConns →
      (handleClose s A).2 = [(B, leaveMsg)] ∧
      ((handleClose s A).1).members (some R) = [B])
    ∧
    (∀ (s : ServerState) (A : ConnId),
      assocGet A s.roomId = none →
      ((handleClose s A).1).rooms = s.rooms ∧
      ((handleClose s A).1).roomId = s.roomId ∧ (handleClose s A).2 = [])
    ∧
    (∀ (s : ServerState) (A : ConnId) (rk : RoomKey),
      assocGet A s.roomId = some rk → mapGet rk s.rooms = none →
      ((handleClose s A).1).rooms = s.rooms ∧
      ((handleClose s A).1).roomId = s.roomId ∧ (handleClose s A).2 = []) := by
  refine ⟨?_, ?_, ?_⟩
  · intro s A B R l hR hrid hget hl hAB hBo
    have hBA : B ≠ A := fun h => hAB h.symm
    have ht : keyTruthy (some R) = true := by simp [keyTruthy, hR]
    rw [handleClose_remove hrid ht hget]
    have hdel : setDelete A l = [B] := by
      rcases hl with rfl | rfl
      · simp [setDelete, hBA]
      · simp [setDelete, hBA]
    have hget1 : mapGet (some R)
        (mapUpdate (some R) (setDelete A) s.rooms) = some [B] := by
      rw [mapGet_mapUpdate_self, hget]
      simp [hdel]
    constructor
    · show broadcastSends _ (some R) leaveMsg A = _
      rw [broadcastSends_eq hget1]
      simp [List.filter_cons, List.mem_filter, hBA, hBo]
    · show (mapGet (some R) (mapUpdate (some R) (setDelete A) s.rooms)).getD []
        = [B]
      rw [hget1]
      rfl
  · intro s A h
    rw [handleClose_noRoomId h]
    exact ⟨rfl, rfl, rfl⟩
  · intro s A rk h ha
    rw [handleClose_absent h ha]
    exact ⟨rfl, rfl, rfl⟩

/-- Witness for C7's amended statement at concrete states. -/
theorem disconnect_notification_witness :
    (handleClose ⟨[(some "r", [1, 2])], [(1, some "r"), (2, some "r")],
      [1, 2]⟩ 1).2 = [(2, leaveMsg)] ∧
    ((handleClose ⟨[(some "r", [1, 2])], [(1, some "r"), (2, some "r")],
      [1, 2]⟩ 1).1).members (some "r") = [2] ∧
    ((handleClose ⟨[(some "q", [1])], [], [1, 3]⟩ 3).1).rooms =
      [(some "q", [1])] ∧
    ((handleClose ⟨[], [(1, some "x")], [1]⟩ 1).1).rooms = [] ∧
    (handleClose ⟨[], [(1, some "x")], [1]⟩ 1).2 = [] := by
  have h1 := disconnect_notification.1
    ⟨[(some "r", [1, 2])], [(1, some "r"), (2, some "r")], [1, 2]⟩ 1 2 "r"
    [1, 2] (by decide) (by decide) (by decide) (Or.inl rfl) (by decide)
    (by decide)
  have h2 := disconnect_notification.2.1 ⟨[(some "q", [1])], [], [1, 3]⟩ 3
    (by decide)
  have h3 := disconnect_notification.2.2 ⟨[], [(1, some "x")], [1]⟩ 1
    (some "x") (by decide) (by decide)
  exact ⟨h1.1, h1.2, h2.1, h3.1, h3.2.2⟩

/-- C8: Room isolation.  A forward-type message scoped to room `R1`
delivers nothing to any connection that is a member of a distinct room
`R2` but not a member of `R1`: every recipient of the broadcast is a
member of `R1`. -/
theorem room_isolation :
    ∀ (s : ServerState) (C : ConnId) (d : JsonMsg) (R1 R2 : String)
      (c : ConnId),
      forwardType d.type → d.room = some R1 → R1 ≠ R2 →
      c ∈ s.members (some R2) → c ∉ s.members (some R1) →
      ∀ m, (c, m) ∉ (onMessage s C (some d)).2 := by
  intro s C d R1 R2 c hf hr _ _ hnot m hm
  rw [onMessage_forward s C hf, hr] at hm
  exact hnot (mem_broadcastSends hm).1

/-- Witness for C8 at two concrete one-member rooms. -/
theorem room_isolation_witness :
    1 ∈ (ServerState.members ⟨[(some "r1", [2]), (some "r2", [1])],
      [(2, some "r1"), (1, some "r2")], [1, 2]⟩ (some "r2")) ∧
    1 ∉ (ServerState.members ⟨[(some "r1", [2]), (some "r2", [1])],
      [(2, some "r1"), (1, some "r2")], [1, 2]⟩ (some "r1")) ∧
    (1, (⟨some "candidate", some "r1", []⟩ : JsonMsg)) ∉
      (onMessage ⟨[(some "r1", [2]), (some "r2", [1])],
        [(2, some "r1"), (1, some "r2")], [1, 2]⟩ 2
        (some ⟨some "candidate", some "r1", []⟩)).2 :=
  ⟨by decide, by decide,
   room_isolation ⟨[(some "r1", [2]), (some "r2", [1])],
      [(2, some "r1"), (1, some "r2")], [1, 2]⟩ 2
      ⟨some "candidate", some "r1", []⟩ "r1" "r2" 1
      (Or.inr (Or.inr rfl)) rfl (by decide) (by decide) (by decide)
      ⟨some "candidate", some "r1", []⟩⟩

/-- C9: Third-join behavior.  A join for a room whose set already holds
2 members, neither of which is the sender `C`, adds `C` (the set then
holds 3 members), records `C`'s room key, and sends no message to any
connection. -/
theorem third_join :
    ∀ (s : ServerState) (C : ConnId) (R : String) (d : JsonMsg)
      (l : List ConnId),
      d.type = some "join" → d.room = some R →
      mapGet (some R) s.rooms = some l → l.length = 2 → C ∉ l →
      (onMessage s C (some d)).2 = [] ∧
      ((onMessage s C (some d)).1).members (some R) = l ++ [C] ∧
      (((onMessage s C (some d)).1).members (some R)).length = 3 ∧
      assocGet C ((onMessage s C (some d)).1).roomId = some (some R) := by
  intro s C R d l ht hr hget hlen hC
  rw [onMessage_join s C ht, hr]
  have hmem : s.members (some R) = l := by
    unfold ServerState.members
    rw [hget]
    rfl
  have h2 := handleJoin_two hmem hlen hC
  refine ⟨?_, ?_, ?_, ?_⟩
  · rw [h2]
  · rw [handleJoin_members_self, hmem, setAdd_eq_append hC]
  · rw [handleJoin_members_self, hmem, setAdd_eq_append hC]
    simp [hlen]
  · rw [handleJoin_fst]
    exact assocGet_assocSet_self C (some R) s.roomId

/-- Witness for C9: a third connection joins a full concrete room. -/
theorem third_join_witness :
    (onMessage ⟨[(some "r", [1, 2])], [(1, some "r"), (2, some "r")],
      [1, 2]⟩ 3 (some ⟨some "join", some "r", []⟩)).2 = [] ∧
    ((onMessage ⟨[(some "r", [1, 2])], [(1, some "r"), (2, some "r")],
      [1, 2]⟩ 3 (some ⟨some "join", some "r", []⟩)).1).members (some "r") =
      [1, 2, 3] ∧
    assocGet 3 ((onMessage ⟨[(some "r", [1, 2])],
      [(1, some "r"), (2, some "r")], [1, 2]⟩ 3
      (some ⟨some "join", some "r", []⟩)).1).roomId = some (some "r") := by
  have h := third_join ⟨[(some "r", [1, 2])],
    [(1, some "r"), (2, some "r")], [1, 2]⟩ 3 "r"
    ⟨some "join", some "r", []⟩ [1, 2] rfl rfl (by decide) (by decide)
    (by decide)
  exact ⟨h.1, h.2.1, h.2.2.2⟩

/-- Counterexample to C10 as stated: with room key `""`, the sole
member's disconnect does not empty the member set (the dead socket `1`
stays), so a later join by `2` finds a non-empty set, becomes the second
member, and receives no `joined` reply — the only send of the whole
trace is the original `joined` to `1`. -/
theorem rooms_never_pruned_counterexample :
    (steps initState
      [Event.connect 1, Event.message 1 (some ⟨some "join", some "", []⟩),
       Event.disconnect 1, Event.connect 2,
       Event.message 2 (some ⟨some "join", some "", []⟩)]).2 =
      [(1, joinedMsg)] ∧
    ((steps initState
      [Event.connect 1, Event.message 1 (some ⟨some "join", some "", []⟩),
       Event.disconnect 1, Event.connect 2,
       Event.message 2 (some ⟨some "join", some "", []⟩)]).1).members
      (some "") = [1, 2] := by
  refine ⟨by decide, by decide⟩

/-- C10 (amended): Rooms are never pruned.  No event ever removes a room
key from the registry.  When the sole member of a room with a nonempty
key (and matching remembered key) disconnects, the room stays in the
registry with an empty member set.  A join naming a registry key whose
set is empty does not append a new registry entry, finds the empty set,
and sends `joined` to the joiner — exactly the sends and resulting
member set of a join naming an absent key.  (For the empty-string key
the disconnect does not empty the set, see the counterexample.) -/
theorem rooms_never_pruned :
    (∀ (s : ServerState) (e : Event) (rk : RoomKey),
      (mapGet rk s.rooms).isSome = true →
      (mapGet rk ((step s e).1).rooms).isSome = true)
    ∧
    (∀ (s : ServerState) (A : ConnId) (R : String),
      R ≠ "" → assocGet A s.roomId = some (some R) →
      mapGet (some R) s.rooms = some [A] →
      mapGet (some R) ((handleClose s A).1).rooms = some [])
    ∧
    (∀ (s : ServerState) (c : ConnId) (R : String) (d : JsonMsg),
      d.type = some "join" → d.room = some R →
      mapGet (some R) s.rooms = some [] →
      ((onMessage s c (some d)).1).rooms =
        mapUpdate (some R) (setAdd c) s.rooms ∧
      (onMessage s c (some d)).2 = [(c, joinedMsg)] ∧
      ((onMessage s c (some d)).1).members (some R) = [c])
    ∧
    (∀ (s : ServerState) (c : ConnId) (R : String) (d : JsonMsg),
      d.type = some "join" → d.room = some R →
      mapGet (some R) s.rooms = none →
      (onMessage s c (some d)).2 = [(c, joinedMsg)] ∧
      ((onMessage s c (some d)).1).members (some R) = [c]) := by
  refine ⟨?_, ?_, ?_, ?_⟩
  · intro s e rk h
    cases e with
    | connect c' => exact h
    | disconnect c' =>
        rcases handleClose_rooms_cases s c' with hc | ⟨rk', hc⟩
        · rw [show (step s (.disconnect c')).1 = (handleClose s c').1
            from rfl, hc]
          exact h
        · rw [show (step s (.disconnect c')).1 = (handleClose s c').1
            from rfl, hc]
          by_cases hrk : rk = rk'
          · subst hrk
            obtain ⟨v, hv⟩ := Option.isSome_iff_exists.mp h
            rw [mapGet_mapUpdate_self, hv]
            rfl
          · rw [mapGet_mapUpdate_ne hrk]
            exact h
    | message c' raw =>
        cases raw with
        | none => exact h
        | some d =>
            by_cases hj : d.type = some "join"
            · rw [show (step s (.message c' (some d))).1 =
                (onMessage s c' (some d)).1 from rfl,
                onMessage_join s c' hj, handleJoin_fst]
              by_cases hrk : rk = d.room
              · subst hrk
                show (mapGet d.room (joinRooms s c' d.room)).isSome = true
                rw [mapGet_joinRooms_self]
                rfl
              · show (mapGet rk (joinRooms s c' d.room)).isSome = true
                rw [mapGet_joinRooms_ne s c' hrk]
                exact h
            · rw [show (step s (.message c' (some d))).1 =
                (onMessage s c' (some d)).1 from rfl,
                onMessage_fst_of_not_join s c' hj]
              exact h
  · intro s A R hR hrid hget
    have ht : keyTruthy (some R) = true := by simp [keyTruthy, hR]
    rw [handleClose_remove hrid ht hget]
    show mapGet (some R) (mapUpdate (some R) (setDelete A) s.rooms) = _
    rw [mapGet_mapUpdate_self, hget]
    simp [setDelete]
  · intro s c R d ht hr hget
    have hmem : s.members (some R) = [] := by
      unfold ServerState.members
      rw [hget]
      rfl
    rw [onMessage_join s c ht, hr, handleJoin_empty s c (some R) hmem]
    refine ⟨?_, rfl, ?_⟩
    · show joinRooms s c (some R) = _
      unfold joinRooms
      rw [if_pos (by simp [hget])]
    · show (mapGet (some R) (joinRooms s c (some R))).getD [] = [c]
      rw [mapGet_joinRooms_self, hmem]
      rfl
  · intro s c R d ht hr hget
    have hmem : s.members (some R) = [] := by
      unfold ServerState.members
      rw [hget]
      rfl
    rw [onMessage_join s c ht, hr, handleJoin_empty s c (some R) hmem]
    refine ⟨rfl, ?_⟩
    show (mapGet (some R) (joinRooms s c (some R))).getD [] = [c]
    rw [mapGet_joinRooms_self, hmem]
    rfl

/-- Witness for C10's amended statement at concrete states. -/
theorem rooms_never_pruned_witness :
    (mapGet (some "r") ((step ⟨[(some "r", [1])], [(1, some "r")], [1]⟩
      (Event.message 2 (some ⟨some "join", some "q", []⟩))).1).rooms).isSome
      = true ∧
    mapGet (some "r") ((handleClose ⟨[(some "r", [1])], [(1, some "r")],
      [1]⟩ 1).1).rooms = some [] ∧
    (onMessage ⟨[(some "r", [])], [], []⟩ 5
      (some ⟨some "join", some "r", []⟩)).2 = [(5, joinedMsg)] ∧
    (onMessage initState 5 (some ⟨some "join", some "r", []⟩)).2 =
      [(5, joinedMsg)] := by
  have h1 := rooms_never_pruned.1 ⟨[(some "r", [1])], [(1, some "r")], [1]⟩
    (Event.message 2 (some ⟨some "join", some "q", []⟩)) (some "r")
    (by decide)
  have h2 := rooms_never_pruned.2.1 ⟨[(some "r", [1])], [(1, some "r")],
    [1]⟩ 1 "r" (by decide) (by decide) (by decide)
  have h3 := rooms_never_pruned.2.2.1 ⟨[(some "r", [])], [], []⟩ 5 "r"
    ⟨some "join", some "r", []⟩ rfl rfl (by decide)
  have h4 := rooms_never_pruned.2.2.2 initState 5 "r"
    ⟨some "join", some "r", []⟩ rfl rfl (by decide)
  exact ⟨h1, h2, h3.2.1, h4.1⟩
